import Mathlib

/-!
Verification development for the bevy-instancing batching / indirect-draw pipeline.

The definitions below are a shallow embedding of the Rust source:

* `src/instancing/indirect.rs` — `DrawIndirect`, `DrawIndexedIndirect`;
* `src/instancing/material/systems/prepare_mesh_batches.rs` — mesh keying/grouping and the
  vertex/index concatenation fold;
* `src/instancing/material/systems/prepare_batched_instances.rs` — per-mesh instance counts,
  the offset folds, indirect-record construction, and the uniform-buffer capacity split;
* `src/instancing/material/systems/prepare_instance_batches.rs` — instance keying and the
  per-batch sort;
* `src/instancing/material/plugin.rs` — `InstancedMeshKey` and its `Ord` implementation.

Machine integers are modelled as `Nat` with explicit reduction modulo `2^w` at the points
where the Rust types (`u16`, `u32`, `u64`/`usize`, `isize`) can wrap.  Rust code paths that
panic (`unwrap`, `panic` on mismatched variants) are modelled with `Option`, `none` marking
the panic.
-/

namespace Instancing

/-- Reduction modulo `2^16`: the value stored in a Rust `u16`. -/
def wrap16 (n : Nat) : Nat := n % 65536

/-- Reduction modulo `2^32`: the value stored in a Rust `u32`. -/
def wrap32 (n : Nat) : Nat := n % 4294967296

/-- Reduction modulo `2^64`: the value stored in a Rust `u64` / `usize`. -/
def wrap64 (n : Nat) : Nat := n % 18446744073709551616

/-- Wrapping `u16` addition (`base_index as u16 + *idx` in release mode). -/
def add16 (a b : Nat) : Nat := wrap16 (a + b)

/-- Wrapping `u32` addition. -/
def add32 (a b : Nat) : Nat := wrap32 (a + b)

/-- Wrapping `u32` subtraction (two's complement). -/
def sub32 (a b : Nat) : Nat := wrap32 (a + (4294967296 - wrap32 b))

/-- Reinterpretation of a `usize`/`u64` value as `isize` (`count as isize`). -/
def usizeToIsize (n : Nat) : Int :=
  if wrap64 n < 9223372036854775808 then (wrap64 n : Int)
  else (wrap64 n : Int) - 18446744073709551616

/-- Truncating cast of an `isize` value to `u32` (`delta as u32`). -/
def intToU32 (i : Int) : Nat := (i % 4294967296).toNat

/-- Truncating cast of an `isize` value to `usize` (`delta as usize`). -/
def intToU64 (i : Int) : Nat := (i % 18446744073709551616).toNat

/-- `DrawIndexedIndirect` from `src/instancing/indirect.rs` (the variant used by the
`systems/` pipeline): GPU-format parameters of one indexed indirect draw. -/
structure DrawIndexedIndirect where
  vertexCount : Nat
  instanceCount : Nat
  baseIndex : Nat
  vertexOffset : Int
  baseInstance : Nat
deriving DecidableEq, Repr

/-- `DrawIndirect` from `src/instancing/indirect.rs`: GPU-format parameters of one
non-indexed indirect draw. -/
structure DrawIndirect where
  vertexCount : Nat
  instanceCount : Nat
  baseVertex : Nat
  baseInstance : Nat
deriving DecidableEq, Repr

/-- The `mesh_instance_offsets` fold of `prepare_batched_instances.rs` (lines 134-144):
walk the per-mesh instance counts in mesh order, recording the running total before each
mesh as its offset.  The counts are `usize`, so the accumulator wraps at `2^64`.
The same fold shape computes `mesh_vertex_offsets` (lines 147-165). -/
def meshInstanceOffsets (counts : List Nat) : List Nat × Nat :=
  counts.foldl (fun acc count => (acc.1 ++ [acc.2], wrap64 (acc.2 + count))) ([], 0)

/-- Helper: the offsets list produced by the fold above, starting from running total `b`. -/
def offsetsFrom (b : Nat) : List Nat → List Nat
  | [] => []
  | c :: cs => b :: offsetsFrom (wrap64 (b + c)) cs

/-- Modelled from the spec: "summing all meshes' instance counts (in mesh order) before
mesh M yields exactly M's base-instance offset" — the exclusive prefix sums of the
per-mesh counts, written independently of the source fold. -/
def specExclusiveOffsets (counts : List Nat) : List Nat :=
  (List.range counts.length).map (fun i => (counts.take i).sum)

theorem offsetsFrom_spec (cs : List Nat) : ∀ b, b + cs.sum < 18446744073709551616 →
    offsetsFrom b cs = (List.range cs.length).map (fun i => b + (cs.take i).sum) := by
  induction cs with
  | nil => intro b _; simp [offsetsFrom]
  | cons c cs ih =>
    intro b hb
    simp only [offsetsFrom, List.length_cons, List.range_succ_eq_map, List.map_cons,
      List.map_map]
    refine List.cons_eq_cons.mpr ⟨by simp, ?_⟩
    · have hw : wrap64 (b + c) = b + c := by
        simp only [List.sum_cons] at hb
        exact Nat.mod_eq_of_lt (by omega)
      rw [hw, ih (b + c) (by simp only [List.sum_cons] at hb; omega)]
      apply List.map_congr_left
      intro i _
      simp [List.take_cons, List.sum_cons]
      omega

theorem meshInstanceOffsets_eq_foldAux (cs : List Nat) : ∀ (l : List Nat) (b : Nat),
    (cs.foldl (fun acc count => (acc.1 ++ [acc.2], wrap64 (acc.2 + count))) (l, b)).1 =
      l ++ offsetsFrom b cs := by
  induction cs with
  | nil => intro l b; simp [offsetsFrom]
  | cons c cs ih =>
    intro l b
    simp only [List.foldl_cons, offsetsFrom]
    rw [ih]
    simp

/-- The offsets fold unwinds to `offsetsFrom 0`. -/
theorem meshInstanceOffsets_eq (cs : List Nat) :
    (meshInstanceOffsets cs).1 = offsetsFrom 0 cs := by
  unfold meshInstanceOffsets
  rw [meshInstanceOffsets_eq_foldAux]
  simp

/-- Claim C4: offset-contiguity — for every instance batch and every constituent mesh M,
M's base-instance offset (the value inserted by the `mesh_instance_offsets` fold) equals
the sum of the instance counts of all meshes preceding M in the batch's mesh order: the
offsets list is exactly the exclusive prefix sums of the per-mesh counts. -/
theorem C4_offset_contiguity (counts : List Nat)
    (h : counts.sum < 18446744073709551616) :
    (meshInstanceOffsets counts).1 = specExclusiveOffsets counts := by
  rw [meshInstanceOffsets_eq, specExclusiveOffsets]
  rw [offsetsFrom_spec counts 0 (by omega)]
  simp

/-- Witness for C4 at the spec's concrete batch: per-mesh counts `[80, 80]` yield
base-instance offsets `[0, 80]`. -/
theorem C4_offset_contiguity_witness :
    ([80, 80] : List Nat).sum < 18446744073709551616 ∧
      (meshInstanceOffsets [80, 80]).1 = specExclusiveOffsets [80, 80] :=
  ⟨by decide, C4_offset_contiguity [80, 80] (by decide)⟩

/-- wgpu `IndexFormat`. -/
inductive SrcIndexFormat
  | uint16
  | uint32
deriving DecidableEq, Repr

/-- `index_format as usize`: the Rust discriminant values. -/
def SrcIndexFormat.asUsize : SrcIndexFormat → Nat
  | .uint16 => 0
  | .uint32 => 1

/-- bevy `Indices`: a 16-bit or a 32-bit index array. -/
inductive SrcIndices
  | u16 (values : List Nat)
  | u32 (values : List Nat)
deriving DecidableEq, Repr

/-- `GpuIndexBufferData` from `plugin.rs`. -/
inductive GpuIndexBufferData
  | indexed (indices : SrcIndices) (indexCount : Nat) (indexFormat : SrcIndexFormat)
  | nonIndexed (vertexCount : Nat)
deriving DecidableEq, Repr

/-- `GpuInstancedMesh` restricted to the fields read by the index-concatenation fold
(`vertex_count`, `index_buffer_data`); the GPU byte blob, layout and key fields are not
consumed by the fold. -/
structure GpuInstancedMesh where
  vertexCount : Nat
  indexBufferData : GpuIndexBufferData
deriving DecidableEq, Repr

/-- One step of the `index_data` fold of `prepare_mesh_batches.rs` (lines 94-161): append
the mesh's indices, each offset by `base_index as u16` (resp. `as u32`).  The source
panics on mismatched index formats or mismatched `GpuIndexBufferData` variants; the panic
is modelled as `none`. -/
def indexDataStep (acc : Option GpuIndexBufferData) (baseIndex : Nat)
    (mesh : GpuInstancedMesh) : Option GpuIndexBufferData :=
  match mesh.indexBufferData with
  | .indexed indices indexCount indexFormat =>
    match acc with
    | some (.indexed accIndices accIndexCount _) =>
      match accIndices, indices with
      | .u16 lhs, .u16 rhs =>
        some (.indexed (.u16 (lhs ++ rhs.map (fun idx => add16 (wrap16 baseIndex) idx)))
          (add32 indexCount accIndexCount) indexFormat)
      | .u32 lhs, .u32 rhs =>
        some (.indexed (.u32 (lhs ++ rhs.map (fun idx => add32 (wrap32 baseIndex) idx)))
          (add32 indexCount accIndexCount) indexFormat)
      | _, _ => none
    | none => some (.indexed indices indexCount indexFormat)
    | some (.nonIndexed _) => none
  | .nonIndexed vertexCount =>
    match acc with
    | some (.nonIndexed accVertexCount) => some (.nonIndexed (add32 vertexCount accVertexCount))
    | none => some (.nonIndexed vertexCount)
    | some (.indexed _ _ _) => none

/-- The `index_data` fold with explicit accumulator and running `base_index` (a `usize`
incremented by each mesh's `vertex_count` after the mesh is processed).  The outer
`Option` marks a panic. -/
def indexDataFoldAux (acc : Option GpuIndexBufferData) (baseIndex : Nat) :
    List GpuInstancedMesh → Option (Option GpuIndexBufferData)
  | [] => some acc
  | m :: rest =>
    match indexDataStep acc baseIndex m with
    | none => none
    | some out => indexDataFoldAux (some out) (wrap64 (baseIndex + m.vertexCount)) rest

/-- The complete `index_data` fold over a mesh batch, starting from `acc = None`,
`base_index = 0`. -/
def indexDataFold (meshes : List GpuInstancedMesh) : Option (Option GpuIndexBufferData) :=
  indexDataFoldAux none 0 meshes

/-- A 16-bit-indexed `GpuInstancedMesh` built from `(vertex_count, indices)`, with
`index_count = indices.len() as u32` as in `extract_instanced_meshes`. -/
def mkU16Mesh (p : Nat × List Nat) : GpuInstancedMesh :=
  ⟨p.1, .indexed (.u16 p.2) (wrap32 p.2.length) .uint16⟩

/-- Modelled from the spec: the "manually offset reference buffer" — each mesh's indices
offset by the running sum of the vertex counts of all preceding meshes (reduced to the
stored 16 bits). -/
def manualOffsetU16 (base : Nat) : List (Nat × List Nat) → List Nat
  | [] => []
  | p :: rest =>
    p.2.map (fun idx => wrap16 (base + idx)) ++ manualOffsetU16 (base + p.1) rest

theorem add16_wrap16_wrap64 (s idx : Nat) :
    add16 (wrap16 (wrap64 s)) idx = wrap16 (s + idx) := by
  unfold add16 wrap16 wrap64
  rw [Nat.mod_mod_of_dvd s (by norm_num)]
  conv_rhs => rw [Nat.add_mod]
  rw [Nat.add_mod (s % 65536) idx]
  simp [Nat.mod_mod_of_dvd]

theorem wrap32_add_wrap32 (a b : Nat) : wrap32 (a + wrap32 b) = wrap32 (a + b) := by
  unfold wrap32
  conv_rhs => rw [Nat.add_mod]
  rw [Nat.add_mod a (b % 4294967296)]
  simp

theorem wrap64_add_wrap64 (a b : Nat) : wrap64 (wrap64 a + b) = wrap64 (a + b) := by
  unfold wrap64
  conv_rhs => rw [Nat.add_mod]
  rw [Nat.add_mod (a % 18446744073709551616) b]
  simp

theorem indexDataFoldAux_u16 (ps : List (Nat × List Nat)) : ∀ (ls : List Nat)
    (cacc s : Nat), cacc < 4294967296 →
    indexDataFoldAux (some (.indexed (.u16 ls) cacc .uint16)) (wrap64 s) (ps.map mkU16Mesh) =
      some (some (.indexed (.u16 (ls ++ manualOffsetU16 s ps))
        (wrap32 ((ps.map (fun p => p.2.length)).sum + cacc)) .uint16)) := by
  induction ps with
  | nil =>
    intro ls cacc s hcacc
    simp [indexDataFoldAux, manualOffsetU16, wrap32, Nat.mod_eq_of_lt hcacc]
  | cons p ps ih =>
    intro ls cacc s hcacc
    simp only [List.map_cons, indexDataFoldAux, indexDataStep, mkU16Mesh]
    have hmap : p.2.map (fun idx => add16 (wrap16 (wrap64 s)) idx) =
        p.2.map (fun idx => wrap16 (s + idx)) := by
      apply List.map_congr_left
      intro idx _
      exact add16_wrap16_wrap64 s idx
    have hbase : wrap64 (wrap64 s + p.1) = wrap64 (s + p.1) := wrap64_add_wrap64 s p.1
    rw [hmap, hbase]
    have hcacc2 : add32 (wrap32 p.2.length) cacc = wrap32 (p.2.length + cacc) := by
      unfold add32
      rw [Nat.add_comm (wrap32 p.2.length) cacc, wrap32_add_wrap32, Nat.add_comm]
    rw [hcacc2, ih (ls ++ p.2.map (fun idx => wrap16 (s + idx))) (wrap32 (p.2.length + cacc))
      (s + p.1) (Nat.mod_lt _ (by norm_num))]
    rw [wrap32_add_wrap32]
    simp [manualOffsetU16, List.append_assoc]
    ring_nf

/-- Claim C5: index-rebasing correctness — when concatenating the index buffers of
16-bit-indexed meshes under one structural key, every index of each subsequent mesh is
offset by the running sum of the vertex counts of all preceding meshes, and the resulting
index sequence equals the manually offset reference buffer. -/
theorem C5_index_rebasing (p : Nat × List Nat) (ps : List (Nat × List Nat))
    (hIdx : ∀ idx ∈ p.2, idx < 65536) :
    indexDataFold ((p :: ps).map mkU16Mesh) =
      some (some (.indexed (.u16 (manualOffsetU16 0 (p :: ps)))
        (wrap32 (((p :: ps).map (fun q => q.2.length)).sum)) .uint16)) := by
  simp only [List.map_cons, indexDataFold, indexDataFoldAux, indexDataStep, mkU16Mesh]
  have h0 : wrap64 (0 + p.1) = wrap64 p.1 := by rw [Nat.zero_add]
  rw [h0, indexDataFoldAux_u16 ps p.2 (wrap32 p.2.length) p.1 (Nat.mod_lt _ (by norm_num))]
  have hfirst : p.2.map (fun idx => wrap16 idx) = p.2 := by
    conv_rhs => rw [← List.map_id p.2]
    apply List.map_congr_left
    intro idx hmem
    simp [wrap16, Nat.mod_eq_of_lt (hIdx idx hmem)]
  have hcount : wrap32 ((ps.map (fun q => q.2.length)).sum + wrap32 p.2.length) =
      wrap32 (p.2.length + (ps.map (fun q => q.2.length)).sum) := by
    rw [wrap32_add_wrap32, Nat.add_comm]
  simp only [manualOffsetU16, Nat.zero_add, hfirst, List.map_cons, List.sum_cons, hcount]

/-- Witness for C5 at the spec's concrete meshes: A with vertex count 4 and indices
`[0, 1, 2, 0]`, B with vertex count 6 and indices `[0, 1, 2, 3]`; concatenation rebases
B's indices by +4. -/
theorem C5_index_rebasing_witness :
    (∀ idx ∈ ((4, [0, 1, 2, 0]) : Nat × List Nat).2, idx < 65536) ∧
      indexDataFold ([((4 : Nat), [0, 1, 2, 0]), ((6 : Nat), [0, 1, 2, 3])].map mkU16Mesh) =
        some (some (.indexed
          (.u16 (manualOffsetU16 0 [(4, [0, 1, 2, 0]), (6, [0, 1, 2, 3])]))
          (wrap32 (([((4 : Nat), [(0 : Nat), 1, 2, 0]), (6, [0, 1, 2, 3])].map
            (fun q => q.2.length)).sum)) .uint16)) :=
  ⟨by decide, C5_index_rebasing (4, [0, 1, 2, 0]) [(6, [0, 1, 2, 3])] (by decide)⟩

/-- Claim C10: 16-bit index rebasing uses wrapping u16 arithmetic — the stored index is
`(running vertex-count base + original index) mod 2^16`, with no widening or rejection:
with a preceding cumulative vertex count of 65540 (> 65535) the stored indices wrap. -/
theorem C10_u16_index_wrapping :
    (∀ (vc n2 : Nat) (l1 l2 : List Nat),
      indexDataFold [mkU16Mesh (vc, l1), mkU16Mesh (n2, l2)] =
        some (some (.indexed (.u16 (l1 ++ l2.map (fun idx => wrap16 (vc + idx))))
          (add32 (wrap32 l2.length) (wrap32 l1.length)) .uint16))) ∧
    indexDataFold [mkU16Mesh (65540, [0]), mkU16Mesh (1, [3])] =
      some (some (.indexed (.u16 [0, 7]) (wrap32 2) .uint16)) ∧
    wrap16 (65540 + 3) = 7 ∧ 65540 + 3 ≠ 7 := by
  refine ⟨?_, by decide, by decide, by decide⟩
  intro vc n2 l1 l2
  simp only [indexDataFold, indexDataFoldAux, indexDataStep, mkU16Mesh]
  have hmap : l2.map (fun idx => add16 (wrap16 (wrap64 (0 + vc))) idx) =
      l2.map (fun idx => wrap16 (vc + idx)) := by
    apply List.map_congr_left
    intro idx _
    rw [Nat.zero_add]
    exact add16_wrap16_wrap64 vc idx
  rw [Nat.zero_add] at hmap ⊢
  rw [hmap]

/-- The indexed indirect-draw templates built by `prepare_mesh_batches.rs` (lines 163-183):
one `DrawIndexedIndirect` per mesh with `vertex_count = *index_count` and every other
field defaulted to zero. -/
def indexedTemplates (indexCounts : List Nat) : List DrawIndexedIndirect :=
  indexCounts.map (fun ic => ⟨ic, 0, 0, 0, 0⟩)

/-- The non-indexed indirect-draw templates (lines 184-201): one `DrawIndirect` per mesh
with `vertex_count = *vertex_count` and every other field defaulted to zero. -/
def nonIndexedTemplates (vertexCounts : List Nat) : List DrawIndirect :=
  vertexCounts.map (fun vcnt => ⟨vcnt, 0, 0, 0⟩)

/-- Indexed indirect-record construction of `prepare_batched_instances.rs`
(lines 174-200): zip the mesh batch's draw templates with the per-mesh instance counts and
the two offset tables, keeping — via the `flat_map` — only the entries whose instance
count is non-zero. -/
def buildIndexedIndirectData (templates : List DrawIndexedIndirect)
    (counts idxOffsets instOffsets : List Nat) : List DrawIndexedIndirect :=
  (templates.zip (counts.zip (idxOffsets.zip instOffsets))).filterMap
    (fun x =>
      if 0 < x.2.1 then
        some ⟨x.1.vertexCount, wrap32 x.2.1, wrap32 x.2.2.1, x.1.vertexOffset,
          wrap32 x.2.2.2⟩
      else none)

/-- Non-indexed indirect-record construction (lines 279-300): a plain `map`, with no
zero-instance-count filter. -/
def buildNonIndexedIndirectData (templates : List DrawIndirect)
    (counts vtxOffsets instOffsets : List Nat) : List DrawIndirect :=
  (templates.zip (counts.zip (vtxOffsets.zip instOffsets))).map
    (fun x => ⟨x.1.vertexCount, wrap32 x.2.1, wrap32 x.2.2.1, wrap32 x.2.2.2⟩)

/-- The indexed record pipeline for one batch, from per-mesh
`(index_count, instance_count)` pairs: both offset folds, then record construction. -/
def prepareIndirectDataIndexed (meshes : List (Nat × Nat)) : List DrawIndexedIndirect :=
  buildIndexedIndirectData (indexedTemplates (meshes.map Prod.fst)) (meshes.map Prod.snd)
    (meshInstanceOffsets (meshes.map Prod.fst)).1
    (meshInstanceOffsets (meshes.map Prod.snd)).1

/-- The non-indexed record pipeline for one batch, from per-mesh
`(vertex_count, instance_count)` pairs. -/
def prepareIndirectDataNonIndexed (meshes : List (Nat × Nat)) : List DrawIndirect :=
  buildNonIndexedIndirectData (nonIndexedTemplates (meshes.map Prod.fst))
    (meshes.map Prod.snd)
    (meshInstanceOffsets (meshes.map Prod.fst)).1
    (meshInstanceOffsets (meshes.map Prod.snd)).1

theorem buildIndexedIndirectData_cons (t : DrawIndexedIndirect)
    (ts : List DrawIndexedIndirect) (c : Nat) (cs : List Nat) (o : Nat) (os : List Nat)
    (q : Nat) (qs : List Nat) :
    buildIndexedIndirectData (t :: ts) (c :: cs) (o :: os) (q :: qs) =
      (if 0 < c then
        [⟨t.vertexCount, wrap32 c, wrap32 o, t.vertexOffset, wrap32 q⟩] else [])
        ++ buildIndexedIndirectData ts cs os qs := by
  simp only [buildIndexedIndirectData, List.zip_cons_cons, List.filterMap_cons]
  by_cases h : 0 < c
  · simp [h]
  · simp [h]

theorem buildNonIndexedIndirectData_cons (t : DrawIndirect) (ts : List DrawIndirect)
    (c : Nat) (cs : List Nat) (o : Nat) (os : List Nat) (q : Nat) (qs : List Nat) :
    buildNonIndexedIndirectData (t :: ts) (c :: cs) (o :: os) (q :: qs) =
      (⟨t.vertexCount, wrap32 c, wrap32 o, wrap32 q⟩ : DrawIndirect)
        :: buildNonIndexedIndirectData ts cs os qs := by
  simp only [buildNonIndexedIndirectData, List.zip_cons_cons, List.map_cons]

theorem buildIndexed_counts (meshes : List (Nat × Nat)) : ∀ (b1 b2 : Nat),
    (∀ m ∈ meshes, m.2 < 4294967296) →
    (buildIndexedIndirectData (indexedTemplates (meshes.map Prod.fst))
        (meshes.map Prod.snd) (offsetsFrom b1 (meshes.map Prod.fst))
        (offsetsFrom b2 (meshes.map Prod.snd))).map (fun r => r.instanceCount) =
      (meshes.map Prod.snd).filter (fun c => 0 < c) := by
  induction meshes with
  | nil => intro b1 b2 _; simp [buildIndexedIndirectData, indexedTemplates, offsetsFrom]
  | cons m ms ih =>
    intro b1 b2 h
    have htail : ∀ q ∈ ms, q.2 < 4294967296 := fun q hq => h q (List.mem_cons_of_mem m hq)
    have hw : wrap32 m.2 = m.2 := Nat.mod_eq_of_lt (h m (List.mem_cons_self m ms))
    have ht : indexedTemplates ((m :: ms).map Prod.fst) =
        (⟨m.1, 0, 0, 0, 0⟩ : DrawIndexedIndirect)
          :: indexedTemplates (ms.map Prod.fst) := rfl
    have hc : (m :: ms).map Prod.snd = m.2 :: ms.map Prod.snd := rfl
    have hv : (m :: ms).map Prod.fst = m.1 :: ms.map Prod.fst := rfl
    rw [ht, hc, hv, offsetsFrom, offsetsFrom, buildIndexedIndirectData_cons]
    by_cases hm : 0 < m.2
    · rw [if_pos hm, List.singleton_append, List.map_cons,
        List.filter_cons_of_pos (by simpa using hm)]
      exact List.cons_eq_cons.mpr ⟨hw, ih _ _ htail⟩
    · rw [if_neg hm, List.nil_append, List.filter_cons_of_neg (by simpa using hm)]
      exact ih _ _ htail

theorem buildNonIndexed_counts (meshes : List (Nat × Nat)) : ∀ (b1 b2 : Nat),
    (∀ m ∈ meshes, m.2 < 4294967296) →
    (buildNonIndexedIndirectData (nonIndexedTemplates (meshes.map Prod.fst))
        (meshes.map Prod.snd) (offsetsFrom b1 (meshes.map Prod.fst))
        (offsetsFrom b2 (meshes.map Prod.snd))).map (fun r => r.instanceCount) =
      meshes.map Prod.snd := by
  induction meshes with
  | nil =>
    intro b1 b2 _
    simp [buildNonIndexedIndirectData, nonIndexedTemplates, offsetsFrom]
  | cons m ms ih =>
    intro b1 b2 h
    have htail : ∀ q ∈ ms, q.2 < 4294967296 := fun q hq => h q (List.mem_cons_of_mem m hq)
    have ht : nonIndexedTemplates ((m :: ms).map Prod.fst) =
        (⟨m.1, 0, 0, 0⟩ : DrawIndirect) :: nonIndexedTemplates (ms.map Prod.fst) := rfl
    have hc : (m :: ms).map Prod.snd = m.2 :: ms.map Prod.snd := rfl
    have hv : (m :: ms).map Prod.fst = m.1 :: ms.map Prod.fst := rfl
    rw [ht, hc, hv, offsetsFrom, offsetsFrom, buildNonIndexedIndirectData_cons,
      List.map_cons]
    exact List.cons_eq_cons.mpr
      ⟨Nat.mod_eq_of_lt (h m (List.mem_cons_self m ms)), ih _ _ htail⟩

/-- Claim C3 (amended): zero-instance exclusion holds on the indexed path — the emitted
indexed indirect records are exactly the subsequence of mesh entries with non-zero
instance count, in mesh order — but the non-indexed path emits one record per mesh entry,
including the zero-instance-count ones. -/
theorem C3_zero_instance_exclusion (meshes : List (Nat × Nat))
    (h : ∀ m ∈ meshes, m.2 < 4294967296) :
    (prepareIndirectDataIndexed meshes).map (fun r => r.instanceCount) =
        (meshes.map Prod.snd).filter (fun c => 0 < c) ∧
      (prepareIndirectDataNonIndexed meshes).map (fun r => r.instanceCount) =
        meshes.map Prod.snd := by
  constructor
  · unfold prepareIndirectDataIndexed
    rw [meshInstanceOffsets_eq, meshInstanceOffsets_eq]
    exact buildIndexed_counts meshes 0 0 h
  · unfold prepareIndirectDataNonIndexed
    rw [meshInstanceOffsets_eq, meshInstanceOffsets_eq]
    exact buildNonIndexed_counts meshes 0 0 h

/-- Witness for C3 (amended) at a batch with per-mesh counts `[2, 0, 3]`: the indexed
path emits two records with counts `[2, 3]`, the non-indexed path emits three. -/
theorem C3_zero_instance_exclusion_witness :
    (∀ m ∈ ([(5, 2), (7, 0), (9, 3)] : List (Nat × Nat)), m.2 < 4294967296) ∧
      ((prepareIndirectDataIndexed [(5, 2), (7, 0), (9, 3)]).map
          (fun r => r.instanceCount) =
        (([(5, 2), (7, 0), (9, 3)] : List (Nat × Nat)).map Prod.snd).filter
          (fun c => 0 < c) ∧
      (prepareIndirectDataNonIndexed [(5, 2), (7, 0), (9, 3)]).map
          (fun r => r.instanceCount) =
        ([(5, 2), (7, 0), (9, 3)] : List (Nat × Nat)).map Prod.snd) :=
  ⟨by decide, C3_zero_instance_exclusion [(5, 2), (7, 0), (9, 3)] (by decide)⟩

/-- Counterexample to Claim C3 as stated: a non-indexed mesh batch with meshes
{A, B, C} where only A and C have live instances (counts `[1, 0, 1]`) produces THREE
indirect-draw records — the zero-count entry for B included — not two. -/
theorem C3_counterexample :
    (prepareIndirectDataNonIndexed [(3, 1), (3, 0), (3, 1)]).map
        (fun r => r.instanceCount) = [1, 0, 1] ∧
      (prepareIndirectDataNonIndexed [(3, 1), (3, 0), (3, 1)]).length = 3 ∧
      ((([(3, 1), (3, 0), (3, 1)] : List (Nat × Nat)).map Prod.snd).filter
        (fun c => 0 < c)).length = 2 := by
  refine ⟨by decide, by decide, by decide⟩

/-- The instance-buffer backing chosen by device capability — the `GpuInstances`
resource variants (`Uniform { buffers }` / `Storage { buffer }`) of the `systems/`
pipeline, reduced to the discriminant consumed by the `matches!` gate of the split. -/
inductive InstanceBufferBacking
  | uniform
  | storage
deriving DecidableEq, Repr

/-- Fold state of the indexed uniform-capacity split loop of
`prepare_batched_instances.rs` (lines 204-243): the completed entries of `split_data`,
the current split (the last entry of `split_data` in the source), the running
`count : usize` and the running `offset : u32`. -/
structure SplitState where
  splitData : List (List DrawIndexedIndirect)
  current : List DrawIndexedIndirect
  count : Nat
  offset : Nat
deriving DecidableEq, Repr

/-- One iteration of the indexed uniform split (lines 211-242): add the record's
instance count to the running count; if it exceeds the capacity `total`
(`UNIFORM_BUFFER_LENGTH`), split the record — the left fragment (rebased by `offset`)
closes the current buffer at the boundary, and the right fragment, with `base_instance`
reset to 0, opens the next buffer. -/
def splitStepIndexed (total : Nat) (st : SplitState) (ind : DrawIndexedIndirect) :
    SplitState :=
  let count := wrap64 (st.count + ind.instanceCount)
  let delta : Int := usizeToIsize count - usizeToIsize total
  if 0 < delta then
    let lhsCount := sub32 ind.instanceCount (intToU32 delta)
    let rebased := sub32 ind.baseInstance st.offset
    let fstRec : DrawIndexedIndirect :=
      ⟨ind.vertexCount, lhsCount, ind.baseIndex, ind.vertexOffset, rebased⟩
    let newCount := intToU64 delta
    let sndRec : DrawIndexedIndirect :=
      ⟨ind.vertexCount, wrap32 newCount, ind.baseIndex, ind.vertexOffset, 0⟩
    ⟨st.splitData ++ [st.current ++ [fstRec]], [sndRec], newCount,
      add32 st.offset (add32 rebased lhsCount)⟩
  else
    ⟨st.splitData,
      st.current ++
        [⟨ind.vertexCount, ind.instanceCount, ind.baseIndex, ind.vertexOffset,
          sub32 ind.baseInstance st.offset⟩],
      count, st.offset⟩

/-- The indexed split loop over the whole record list, starting from
`split_data = vec![vec![]]`, `count = 0`, `offset = 0`. -/
def splitIndexed (total : Nat) (inds : List DrawIndexedIndirect) :
    List (List DrawIndexedIndirect) :=
  let st := inds.foldl (splitStepIndexed total) ⟨[], [], 0, 0⟩
  st.splitData ++ [st.current]

/-- Lines 204-246: uniform-backed instance buffers run the capacity split; storage
backing passes the records through as a single buffer. -/
def splitDataIndexed (backing : InstanceBufferBacking) (total : Nat)
    (inds : List DrawIndexedIndirect) : List (List DrawIndexedIndirect) :=
  match backing with
  | .uniform => splitIndexed total inds
  | .storage => [inds]

/-- Fold state of the non-indexed uniform split loop (lines 302-336); this variant
keeps no running `offset`. -/
structure SplitStateNI where
  splitData : List (List DrawIndirect)
  current : List DrawIndirect
  count : Nat
deriving DecidableEq, Repr

/-- One iteration of the non-indexed uniform split (lines 308-336).  Differences from
the indexed variant, faithful to the source: pushed records keep their global
`base_instance` (no rebasing against the current buffer), the overflow fragment's
`base_instance` is advanced by the left fragment's count instead of being reset to 0,
and the running count resets to zero rather than to the overflow amount. -/
def splitStepNonIndexed (total : Nat) (st : SplitStateNI) (ind : DrawIndirect) :
    SplitStateNI :=
  let count := wrap64 (st.count + ind.instanceCount)
  let delta : Int := usizeToIsize count - usizeToIsize total
  if 0 < delta then
    let lhsCount := sub32 ind.instanceCount (intToU32 delta)
    let fstRec : DrawIndirect :=
      ⟨ind.vertexCount, lhsCount, ind.baseVertex, ind.baseInstance⟩
    let sndRec : DrawIndirect :=
      ⟨ind.vertexCount, intToU32 delta, ind.baseVertex, add32 ind.baseInstance lhsCount⟩
    ⟨st.splitData ++ [st.current ++ [fstRec]], [sndRec], 0⟩
  else
    ⟨st.splitData, st.current ++ [ind], count⟩

/-- The non-indexed split loop over the whole record list. -/
def splitNonIndexed (total : Nat) (inds : List DrawIndirect) : List (List DrawIndirect) :=
  let st := inds.foldl (splitStepNonIndexed total) ⟨[], [], 0⟩
  st.splitData ++ [st.current]

/-- Lines 302-339: the non-indexed analogue of `splitDataIndexed`. -/
def splitDataNonIndexed (backing : InstanceBufferBacking) (total : Nat)
    (inds : List DrawIndirect) : List (List DrawIndirect) :=
  match backing with
  | .uniform => splitNonIndexed total inds
  | .storage => [inds]

/-- The instance count held by one emitted buffer. -/
def bufCount (buf : List DrawIndexedIndirect) : Nat :=
  (buf.map (fun r => r.instanceCount)).sum

/-- A buffer is contiguous from its own base 0 when each record's base-instance is the
sum of the instance counts of the records before it in that buffer. -/
def contiguousFromZero (buf : List DrawIndexedIndirect) : Prop :=
  buf.map (fun r => r.baseInstance) = specExclusiveOffsets (buf.map (fun r => r.instanceCount))

theorem wrap32_eq_of_lt {n : Nat} (h : n < 4294967296) : wrap32 n = n :=
  Nat.mod_eq_of_lt h

theorem wrap64_eq_of_lt {n : Nat} (h : n < 18446744073709551616) : wrap64 n = n :=
  Nat.mod_eq_of_lt h

theorem sub32_eq_of_le {a b : Nat} (hba : b ≤ a) (ha : a < 4294967296) :
    sub32 a b = a - b := by
  unfold sub32 wrap32
  have hb : b < 4294967296 := Nat.lt_of_le_of_lt hba ha
  rw [Nat.mod_eq_of_lt hb]
  omega

theorem usizeToIsize_eq_of_lt {n : Nat} (h : n < 9223372036854775808) :
    usizeToIsize n = (n : Int) := by
  unfold usizeToIsize wrap64
  rw [Nat.mod_eq_of_lt (by omega)]
  simp [h]

theorem intToU32_coe_of_lt {n : Nat} (h : n < 4294967296) : intToU32 (n : Int) = n := by
  unfold intToU32
  rw [Int.emod_eq_of_lt (by positivity) (by exact_mod_cast h)]
  simp

theorem intToU64_coe_of_lt {n : Nat} (h : n < 18446744073709551616) :
    intToU64 (n : Int) = n := by
  unfold intToU64
  have : ((n : Int) % 18446744073709551616) = (n : Int) := by
    apply Int.emod_eq_of_lt (by positivity)
    omega
  rw [this]
  simp

theorem specExclusiveOffsets_append (l : List Nat) (c : Nat) :
    specExclusiveOffsets (l ++ [c]) = specExclusiveOffsets l ++ [l.sum] := by
  unfold specExclusiveOffsets
  rw [List.length_append, List.length_singleton, List.range_succ, List.map_append]
  congr 1
  · apply List.map_congr_left
    intro i hi
    rw [List.take_append_of_le_length (le_of_lt (List.mem_range.mp hi))]
  · simp

theorem bufCount_append (l : List DrawIndexedIndirect) (r : DrawIndexedIndirect) :
    bufCount (l ++ [r]) = bufCount l + r.instanceCount := by
  simp [bufCount]

theorem contiguousFromZero_nil : contiguousFromZero [] := by
  simp [contiguousFromZero, specExclusiveOffsets]

theorem contiguousFromZero_append (l : List DrawIndexedIndirect)
    (hl : contiguousFromZero l) (r : DrawIndexedIndirect)
    (hr : r.baseInstance = bufCount l) : contiguousFromZero (l ++ [r]) := by
  unfold contiguousFromZero at hl ⊢
  rw [List.map_append, List.map_append, List.map_singleton, List.map_singleton,
    specExclusiveOffsets_append, hl, hr]
  unfold bufCount
  rfl

/-- Recursive characterization of the indexed record pipeline: one record per mesh with a
positive instance count, carrying the running (u32-cast) index and instance offsets. -/
def recsFull (ibase obase : Nat) : List (Nat × Nat) → List DrawIndexedIndirect
  | [] => []
  | m :: ms =>
    if 0 < m.2 then
      ⟨m.1, wrap32 m.2, wrap32 ibase, 0, wrap32 obase⟩
        :: recsFull (wrap64 (ibase + m.1)) (wrap64 (obase + m.2)) ms
    else recsFull (wrap64 (ibase + m.1)) (wrap64 (obase + m.2)) ms

theorem buildIndexed_eq_recsFull (meshes : List (Nat × Nat)) : ∀ (b1 b2 : Nat),
    buildIndexedIndirectData (indexedTemplates (meshes.map Prod.fst))
      (meshes.map Prod.snd) (offsetsFrom b1 (meshes.map Prod.fst))
      (offsetsFrom b2 (meshes.map Prod.snd)) = recsFull b1 b2 meshes := by
  induction meshes with
  | nil =>
    intro b1 b2
    simp [buildIndexedIndirectData, indexedTemplates, offsetsFrom, recsFull]
  | cons m ms ih =>
    intro b1 b2
    have ht : indexedTemplates ((m :: ms).map Prod.fst) =
        (⟨m.1, 0, 0, 0, 0⟩ : DrawIndexedIndirect)
          :: indexedTemplates (ms.map Prod.fst) := rfl
    have hc : (m :: ms).map Prod.snd = m.2 :: ms.map Prod.snd := rfl
    have hv : (m :: ms).map Prod.fst = m.1 :: ms.map Prod.fst := rfl
    rw [ht, hc, hv, offsetsFrom, offsetsFrom, buildIndexedIndirectData_cons]
    simp only [recsFull]
    by_cases hm : 0 < m.2
    · rw [if_pos hm, if_pos hm, List.singleton_append]
      exact List.cons_eq_cons.mpr ⟨rfl, ih _ _⟩
    · rw [if_neg hm, if_neg hm, List.nil_append]
      exact ih _ _

theorem prepareIndirectDataIndexed_eq (meshes : List (Nat × Nat)) :
    prepareIndirectDataIndexed meshes = recsFull 0 0 meshes := by
  unfold prepareIndirectDataIndexed
  rw [meshInstanceOffsets_eq, meshInstanceOffsets_eq]
  exact buildIndexed_eq_recsFull meshes 0 0

theorem contiguousFromZero_singleton (r : DrawIndexedIndirect)
    (h : r.baseInstance = 0) : contiguousFromZero [r] := by
  simp [contiguousFromZero, specExclusiveOffsets, h, List.range_succ]

/-- The no-split branch of the indexed step, with every machine-integer wrap discharged
by range bounds. -/
theorem splitStepIndexed_no_split (total : Nat) (st : SplitState)
    (ind : DrawIndexedIndirect)
    (h63 : st.count + ind.instanceCount < 9223372036854775808)
    (ht63 : total < 9223372036854775808)
    (hle : st.count + ind.instanceCount ≤ total) :
    splitStepIndexed total st ind =
      ⟨st.splitData,
        st.current ++ [⟨ind.vertexCount, ind.instanceCount, ind.baseIndex,
          ind.vertexOffset, sub32 ind.baseInstance st.offset⟩],
        st.count + ind.instanceCount, st.offset⟩ := by
  simp only [splitStepIndexed]
  rw [wrap64_eq_of_lt (by omega)]
  rw [usizeToIsize_eq_of_lt h63, usizeToIsize_eq_of_lt ht63]
  rw [if_neg (by omega)]

/-- The split branch of the indexed step, phrased with the overflow
`δ = count + instance_count - total` as a natural number. -/
theorem splitStepIndexed_split (total : Nat) (st : SplitState)
    (ind : DrawIndexedIndirect)
    (h63 : st.count + ind.instanceCount < 9223372036854775808)
    (ht63 : total < 9223372036854775808)
    (hgt : total < st.count + ind.instanceCount)
    (hδ32 : st.count + ind.instanceCount - total < 4294967296) :
    splitStepIndexed total st ind =
      ⟨st.splitData ++ [st.current ++
          [⟨ind.vertexCount,
            sub32 ind.instanceCount (st.count + ind.instanceCount - total),
            ind.baseIndex, ind.vertexOffset, sub32 ind.baseInstance st.offset⟩]],
        [⟨ind.vertexCount, wrap32 (st.count + ind.instanceCount - total), ind.baseIndex,
          ind.vertexOffset, 0⟩],
        st.count + ind.instanceCount - total,
        add32 st.offset (add32 (sub32 ind.baseInstance st.offset)
          (sub32 ind.instanceCount (st.count + ind.instanceCount - total)))⟩ := by
  simp only [splitStepIndexed]
  rw [wrap64_eq_of_lt (by omega)]
  rw [usizeToIsize_eq_of_lt h63, usizeToIsize_eq_of_lt ht63]
  rw [if_pos (by omega)]
  have hδ : ((st.count + ind.instanceCount : Nat) : Int) - (total : Int) =
      ((st.count + ind.instanceCount - total : Nat) : Int) := by omega
  rw [hδ, intToU32_coe_of_lt hδ32, intToU64_coe_of_lt (by omega)]

/-- Loop invariant of the indexed uniform split after consuming `S` instances: completed
buffers are exactly full and contiguous, the current buffer is contiguous with fill
`count`, and `offset` counts the instances handed to completed buffers. -/
structure SplitInv (total : Nat) (st : SplitState) (S : Nat) : Prop where
  offsetCount : st.offset + st.count = S
  countLe : st.count ≤ total
  offsetEq : st.offset = total * st.splitData.length
  doneFull : ∀ buf ∈ st.splitData, bufCount buf = total
  doneContig : ∀ buf ∈ st.splitData, contiguousFromZero buf
  doneFits : ∀ buf ∈ st.splitData, ∀ r ∈ buf, r.baseInstance + r.instanceCount ≤ total
  curContig : contiguousFromZero st.current
  curCount : bufCount st.current = st.count
  curFits : ∀ r ∈ st.current, r.baseInstance + r.instanceCount ≤ st.count

theorem splitInv_fold (total : Nat) (hts : total ≤ 2147483648) (ms : List (Nat × Nat)) :
    ∀ (b1 : Nat) (st : SplitState) (S : Nat),
      (∀ m ∈ ms, m.2 ≤ total) →
      S + (ms.map Prod.snd).sum < 4294967296 →
      SplitInv total st S →
      SplitInv total (List.foldl (splitStepIndexed total) st (recsFull b1 S ms))
        (S + (ms.map Prod.snd).sum) := by
  induction ms with
  | nil =>
    intro b1 st S _ _ hinv
    simpa [recsFull] using hinv
  | cons m ms ih =>
    intro b1 st S hc hsum hinv
    have hm2 : m.2 ≤ total := hc m (List.mem_cons_self m ms)
    have hrest : ∀ q ∈ ms, q.2 ≤ total := fun q hq => hc q (List.mem_cons_of_mem m hq)
    have hsumEq : ((m :: ms).map Prod.snd).sum = m.2 + (ms.map Prod.snd).sum := by simp
    have hsum2 : (S + m.2) + (ms.map Prod.snd).sum < 4294967296 := by
      rw [hsumEq] at hsum
      omega
    have hS32 : S + m.2 < 4294967296 := by omega
    have hw64 : wrap64 (S + m.2) = S + m.2 := wrap64_eq_of_lt (by omega)
    have hoffS : st.offset + st.count = S := hinv.offsetCount
    have hcntLe : st.count ≤ total := hinv.countLe
    rw [hsumEq, ← Nat.add_assoc]
    by_cases hm : 0 < m.2
    · simp only [recsFull, if_pos hm, List.foldl_cons]
      rw [hw64, show wrap32 m.2 = m.2 from wrap32_eq_of_lt (by omega),
        show wrap32 S = S from wrap32_eq_of_lt (by omega)]
      by_cases hfits : st.count + m.2 ≤ total
      · have hstep := splitStepIndexed_no_split total st ⟨m.1, m.2, wrap32 b1, 0, S⟩
          (by dsimp only; omega) (by omega) (by dsimp only; omega)
        rw [hstep]
        have hsub : sub32 S st.offset = st.count := by
          rw [sub32_eq_of_le (by omega) (by omega)]
          omega
        dsimp only at hsub ⊢
        rw [hsub]
        have hinv1 : SplitInv total
            ⟨st.splitData, st.current ++ [⟨m.1, m.2, wrap32 b1, 0, st.count⟩],
              st.count + m.2, st.offset⟩ (S + m.2) := by
          refine ⟨by dsimp only; omega, by dsimp only; omega,
            by dsimp only; exact hinv.offsetEq, by dsimp only; exact hinv.doneFull,
            by dsimp only; exact hinv.doneContig, by dsimp only; exact hinv.doneFits,
            ?_, ?_, ?_⟩
          · dsimp only
            exact contiguousFromZero_append _ hinv.curContig _ (by rw [hinv.curCount])
          · dsimp only
            rw [bufCount_append, hinv.curCount]
          · dsimp only
            intro r hr
            rcases List.mem_append.mp hr with h | h
            · have := hinv.curFits r h
              omega
            · rw [List.mem_singleton.mp h]
        exact ih (wrap64 (b1 + m.1)) _ (S + m.2) hrest hsum2 hinv1
      · have hgt : total < st.count + m.2 := by omega
        have hstep := splitStepIndexed_split total st ⟨m.1, m.2, wrap32 b1, 0, S⟩
          (by dsimp only; omega) (by omega) (by dsimp only; omega) (by dsimp only; omega)
        rw [hstep]
        dsimp only at *
        have hδle : st.count + m.2 - total ≤ m.2 := by omega
        have hsubS : sub32 S st.offset = st.count := by
          rw [sub32_eq_of_le (by omega) (by omega)]
          omega
        have hsubC : sub32 m.2 (st.count + m.2 - total) =
            m.2 - (st.count + m.2 - total) := sub32_eq_of_le (by omega) (by omega)
        have hwδ : wrap32 (st.count + m.2 - total) = st.count + m.2 - total :=
          wrap32_eq_of_lt (by omega)
        rw [hsubS, hsubC, hwδ]
        have hoff1 : add32 st.count (m.2 - (st.count + m.2 - total)) = total := by
          unfold add32
          rw [wrap32_eq_of_lt (by omega)]
          omega
        have hoff2 : add32 st.offset total = st.offset + total := by
          unfold add32
          exact wrap32_eq_of_lt (by omega)
        rw [hoff1, hoff2]
        have hinv1 : SplitInv total
            ⟨st.splitData ++
                [st.current ++ [⟨m.1, m.2 - (st.count + m.2 - total), wrap32 b1, 0,
                  st.count⟩]],
              [⟨m.1, st.count + m.2 - total, wrap32 b1, 0, 0⟩],
              st.count + m.2 - total, st.offset + total⟩ (S + m.2) := by
          have hnewFull : bufCount (st.current ++
              [⟨m.1, m.2 - (st.count + m.2 - total), wrap32 b1, 0, st.count⟩]) = total := by
            rw [bufCount_append, hinv.curCount]
            dsimp only
            omega
          refine ⟨by dsimp only; omega, by dsimp only; omega, ?_, ?_, ?_, ?_, ?_, ?_, ?_⟩
          · dsimp only
            rw [List.length_append, List.length_singleton, Nat.mul_add, Nat.mul_one,
              hinv.offsetEq]
          · dsimp only
            intro buf hbuf
            rcases List.mem_append.mp hbuf with h | h
            · exact hinv.doneFull buf h
            · rw [List.mem_singleton.mp h]
              exact hnewFull
          · dsimp only
            intro buf hbuf
            rcases List.mem_append.mp hbuf with h | h
            · exact hinv.doneContig buf h
            · rw [List.mem_singleton.mp h]
              exact contiguousFromZero_append _ hinv.curContig _ (by rw [hinv.curCount])
          · dsimp only
            intro buf hbuf r hr
            rcases List.mem_append.mp hbuf with h | h
            · exact hinv.doneFits buf h r hr
            · rw [List.mem_singleton.mp h] at hr
              rcases List.mem_append.mp hr with h2 | h2
              · have := hinv.curFits r h2
                omega
              · rw [List.mem_singleton.mp h2]
                dsimp only
                omega
          · dsimp only
            exact contiguousFromZero_singleton _ rfl
          · dsimp only
            simp [bufCount]
          · dsimp only
            intro r hr
            rw [List.mem_singleton.mp hr]
            dsimp only
            omega
        exact ih (wrap64 (b1 + m.1)) _ (S + m.2) hrest hsum2 hinv1
    · have hz : m.2 = 0 := by omega
      simp only [recsFull, if_neg hm]
      rw [hz, Nat.add_zero, wrap64_eq_of_lt (show S < 18446744073709551616 by omega)]
      have := ih (wrap64 (b1 + m.1)) st S hrest (by omega) hinv
      simpa using this

theorem sum_map_total {α : Type} (l : List α) (f : α → Nat) (t : Nat)
    (h : ∀ x ∈ l, f x = t) : (l.map f).sum = t * l.length := by
  induction l with
  | nil => simp
  | cons x xs ih =>
    simp only [List.map_cons, List.sum_cons, List.length_cons]
    rw [h x (List.mem_cons_self x xs), ih (fun y hy => h y (List.mem_cons_of_mem x hy))]
    ring

/-- Claim C1 (amended): uniform-buffer capacity splitting, for an INDEXED batch whose
per-mesh instance counts each fit one buffer's capacity — the per-mesh indirect-draw
records are partitioned across buffers so that every buffer holds at most `total`
instances, no single record extends past the capacity boundary
(`base_instance + instance_count ≤ total`), each buffer's records are contiguous from its
own base-instance 0 (so a fragment opening a new buffer has its base reset), the instance
counts over all emitted records sum to the batch total, a batch exceeding one capacity
occupies at least two buffers, and in particular capacity 112 with counts `[80, 80]`
yields buffer 0 = (80 @ 0), (32 @ 80) and buffer 1 = (48 @ 0). -/
theorem C1_uniform_capacity_split (meshes : List (Nat × Nat)) (total : Nat)
    (_htot : 0 < total) (hts : total ≤ 2147483648)
    (hc : ∀ m ∈ meshes, m.2 ≤ total)
    (hsum : (meshes.map Prod.snd).sum < 4294967296) :
    ((splitDataIndexed InstanceBufferBacking.uniform total
        (prepareIndirectDataIndexed meshes)).map bufCount).sum =
        (meshes.map Prod.snd).sum ∧
      (∀ buf ∈ splitDataIndexed InstanceBufferBacking.uniform total
          (prepareIndirectDataIndexed meshes), bufCount buf ≤ total) ∧
      (∀ buf ∈ splitDataIndexed InstanceBufferBacking.uniform total
          (prepareIndirectDataIndexed meshes),
        ∀ r ∈ buf, r.baseInstance + r.instanceCount ≤ total) ∧
      (∀ buf ∈ splitDataIndexed InstanceBufferBacking.uniform total
          (prepareIndirectDataIndexed meshes), contiguousFromZero buf) ∧
      (total < (meshes.map Prod.snd).sum →
        2 ≤ (splitDataIndexed InstanceBufferBacking.uniform total
          (prepareIndirectDataIndexed meshes)).length) ∧
      (splitDataIndexed InstanceBufferBacking.uniform 112
          (prepareIndirectDataIndexed [(36, 80), (36, 80)])).map
          (List.map (fun r => (r.instanceCount, r.baseInstance))) =
        [[(80, 0), (32, 80)], [(48, 0)]] := by
  have hinv0 : SplitInv total ⟨[], [], 0, 0⟩ 0 := by
    refine ⟨rfl, Nat.zero_le _, by simp, by simp, by simp, by simp,
      contiguousFromZero_nil, rfl, by simp⟩
  have hfold := splitInv_fold total hts meshes 0 ⟨[], [], 0, 0⟩ 0 hc (by simpa) hinv0
  rw [Nat.zero_add] at hfold
  have hres : splitDataIndexed InstanceBufferBacking.uniform total
      (prepareIndirectDataIndexed meshes) =
      (List.foldl (splitStepIndexed total) ⟨[], [], 0, 0⟩ (recsFull 0 0 meshes)).splitData
        ++ [(List.foldl (splitStepIndexed total) ⟨[], [], 0, 0⟩
          (recsFull 0 0 meshes)).current] := by
    rw [prepareIndirectDataIndexed_eq]
    rfl
  set st := List.foldl (splitStepIndexed total) ⟨[], [], 0, 0⟩ (recsFull 0 0 meshes)
    with hstdef
  refine ⟨?_, ?_, ?_, ?_, ?_, by decide⟩
  · rw [hres, List.map_append, List.sum_append, List.map_singleton, List.sum_singleton,
      sum_map_total st.splitData bufCount total hfold.doneFull, hfold.curCount,
      ← hfold.offsetEq, hfold.offsetCount]
  · rw [hres]
    intro buf hbuf
    rcases List.mem_append.mp hbuf with h | h
    · rw [hfold.doneFull buf h]
    · rw [List.mem_singleton.mp h, hfold.curCount]
      exact hfold.countLe
  · rw [hres]
    intro buf hbuf r hr
    rcases List.mem_append.mp hbuf with h | h
    · exact hfold.doneFits buf h r hr
    · rw [List.mem_singleton.mp h] at hr
      exact Nat.le_trans (hfold.curFits r hr) hfold.countLe
  · rw [hres]
    intro buf hbuf
    rcases List.mem_append.mp hbuf with h | h
    · exact hfold.doneContig buf h
    · rw [List.mem_singleton.mp h]
      exact hfold.curContig
  · rw [hres]
    intro hover
    rw [List.length_append, List.length_singleton]
    cases hsd : st.splitData with
    | nil =>
      exfalso
      have hoff := hfold.offsetEq
      rw [hsd] at hoff
      simp at hoff
      have := hfold.offsetCount
      have := hfold.countLe
      omega
    | cons x xs => simp

/-- Witness for C1 (amended) at capacity 112 and per-mesh counts `[80, 80]`: the summed
instance counts across the emitted buffers equal the batch total 160. -/
theorem C1_uniform_capacity_split_witness :
    ((splitDataIndexed InstanceBufferBacking.uniform 112
        (prepareIndirectDataIndexed [(36, 80), (36, 80)])).map bufCount).sum =
      (([(36, 80), (36, 80)] : List (Nat × Nat)).map Prod.snd).sum :=
  (C1_uniform_capacity_split [(36, 80), (36, 80)] 112 (by decide) (by decide) (by decide)
    (by decide)).1

/-- Counterexample to Claim C1 as stated: the claim quantifies over every uniform-backed
batch, but on the NON-indexed split path the overflow fragment's base-instance is NOT
reset relative to the new buffer — with capacity 112 and per-mesh counts `[80, 80]`,
buffer 1 holds (count 48, base 112), not (count 48, base 0). -/
theorem C1_counterexample :
    (splitDataNonIndexed InstanceBufferBacking.uniform 112
        (prepareIndirectDataNonIndexed [(36, 80), (36, 80)])).map
        (List.map (fun r => (r.instanceCount, r.baseInstance))) =
      [[(80, 0), (32, 80)], [(48, 112)]] ∧
    ¬ (splitDataNonIndexed InstanceBufferBacking.uniform 112
        (prepareIndirectDataNonIndexed [(36, 80), (36, 80)])).map
        (List.map (fun r => (r.instanceCount, r.baseInstance))) =
      [[(80, 0), (32, 80)], [(48, 0)]] :=
  ⟨by decide, by decide⟩

/-- `GpuAlphaMode` from `plugin.rs`, the key-friendly `AlphaMode`; `opq` stands for the
source's `Opaque` variant, `mask` for `Mask`, `blend` for `Blend`.  The derived order
(`Opaque < Mask < Blend`) is the declaration order, as in the source. -/
inductive GpuAlphaMode
  | opq
  | mask
  | blend
deriving DecidableEq, Repr

/-- One extracted instance with the inputs the per-batch sort reads
(`prepare_instance_batches.rs` lines 83-146): its mesh handle, its view-space distance
along the view's forward axis, and its material's depth bias.  The f32 quantities are
modelled as integers — only their ordering matters here. -/
structure SortInstance where
  entity : Nat
  meshHandle : Nat
  viewDistance : Int
  depthBias : Int
deriving DecidableEq, Repr

/-- Modelled from the spec: the host view's rangefinder ("compute each instance's signed
distance along the view's forward axis (from a view-space rangefinder)").  bevy's
`ViewRangefinder3d::distance` returns the view-space z-coordinate of the instance
translation; with the camera looking down negative z this is the NEGATION of the forward
distance, the convention that makes bevy's own ascending transparent-phase sort
back-to-front. -/
def rangefinderDistance (inst : SortInstance) : Int := -inst.viewDistance

/-- `mesh_z` (line 114): rangefinder distance plus the material's depth bias. -/
def meshZ (inst : SortInstance) : Int := rangefinderDistance inst + inst.depthBias

/-- `dist` (lines 117-124): `mesh_z * 1.0` for blend (back-to-front), `mesh_z * -1.0`
for opaque/mask (front-to-back). -/
def sortDist (alphaMode : GpuAlphaMode) (inst : SortInstance) : Int :=
  meshZ inst * (if alphaMode = GpuAlphaMode.blend then 1 else -1)

/-- The key pushed with each instance (lines 131-134): `(mesh_handle, FloatOrd(dist))`,
compared lexicographically — mesh handle is the senior component. -/
def sortKey (alphaMode : GpuAlphaMode) (inst : SortInstance) : Nat × Int :=
  (inst.meshHandle, sortDist alphaMode inst)

/-- The ascending order induced by `lhs_key.cmp(rhs_key)` on the key tuples. -/
def keyLe (a b : Nat × Int) : Bool :=
  decide (a.1 < b.1 ∨ (a.1 = b.1 ∧ a.2 ≤ b.2))

/-- The comparison relation of the `sort_unstable_by` call (lines 144-146). -/
def sortRel (alphaMode : GpuAlphaMode) (l r : SortInstance) : Prop :=
  keyLe (sortKey alphaMode l) (sortKey alphaMode r) = true

instance sortRelDec (alphaMode : GpuAlphaMode) : DecidableRel (sortRel alphaMode) :=
  fun l r => by unfold sortRel; infer_instance

instance sortRelTotal (alphaMode : GpuAlphaMode) :
    IsTotal SortInstance (sortRel alphaMode) := by
  refine ⟨fun a b => ?_⟩
  unfold sortRel keyLe
  simp only [decide_eq_true_eq]
  omega

instance sortRelTrans (alphaMode : GpuAlphaMode) :
    IsTrans SortInstance (sortRel alphaMode) := by
  refine ⟨fun a b c hab hbc => ?_⟩
  unfold sortRel keyLe at hab hbc ⊢
  simp only [decide_eq_true_eq] at hab hbc ⊢
  omega

/-- The per-batch instance sort (`sort_unstable_by` at lines 144-146): sort ascending by
`(mesh_handle, FloatOrd(dist))`.  The source's unstable comparison sort is modelled by
insertion sort — any comparison sort produces a sorted permutation, which is all the
claims consume. -/
def sortInstances (alphaMode : GpuAlphaMode) (insts : List SortInstance) :
    List SortInstance :=
  insts.insertionSort (sortRel alphaMode)

theorem sortInstances_sorted (alphaMode : GpuAlphaMode) (insts : List SortInstance) :
    List.Sorted (sortRel alphaMode) (sortInstances alphaMode insts) :=
  List.sorted_insertionSort _ _

/-- Mesh handles are weakly ascending along the packed order. -/
theorem sortInstances_mesh_mono (alphaMode : GpuAlphaMode) (insts : List SortInstance)
    (a b : Nat) (ha : a < (sortInstances alphaMode insts).length)
    (hb : b < (sortInstances alphaMode insts).length) (hab : a ≤ b) :
    ((sortInstances alphaMode insts).get ⟨a, ha⟩).meshHandle ≤
      ((sortInstances alphaMode insts).get ⟨b, hb⟩).meshHandle := by
  have hsorted := sortInstances_sorted alphaMode insts
  rw [List.Sorted, List.pairwise_iff_get] at hsorted
  rcases Nat.lt_or_ge a b with hlt | hge
  · have h := hsorted ⟨a, ha⟩ ⟨b, hb⟩ hlt
    unfold sortRel keyLe sortKey at h
    simp only [decide_eq_true_eq] at h
    omega
  · have heq : a = b := by omega
    subst heq
    rfl

/-- Claim C8: mesh-contiguity — in the packed instance order, instances of one mesh form
one contiguous run: whenever positions i ≤ j ≤ k reference the same mesh at i and k, the
position j in between references that mesh too. -/
theorem C8_mesh_contiguity (alphaMode : GpuAlphaMode) (insts : List SortInstance)
    (i j k : Nat) (hij : i ≤ j) (hjk : j ≤ k)
    (hk : k < (sortInstances alphaMode insts).length)
    (hik : ((sortInstances alphaMode insts).get ⟨i, by omega⟩).meshHandle =
        ((sortInstances alphaMode insts).get ⟨k, hk⟩).meshHandle) :
    ((sortInstances alphaMode insts).get ⟨j, by omega⟩).meshHandle =
      ((sortInstances alphaMode insts).get ⟨i, by omega⟩).meshHandle := by
  have h1 := sortInstances_mesh_mono alphaMode insts i j (by omega) (by omega) hij
  have h2 := sortInstances_mesh_mono alphaMode insts j k (by omega) hk hjk
  omega

/-- Witness for C8: a blend batch with two instances of mesh 4 at distances 3 and 1;
position 1 lies between the equal-mesh positions 0 and 1. -/
theorem C8_mesh_contiguity_witness :
    ((sortInstances GpuAlphaMode.blend [⟨1, 4, 3, 0⟩, ⟨2, 4, 1, 0⟩]).get
        ⟨1, by decide⟩).meshHandle =
      ((sortInstances GpuAlphaMode.blend [⟨1, 4, 3, 0⟩, ⟨2, 4, 1, 0⟩]).get
        ⟨0, by decide⟩).meshHandle :=
  C8_mesh_contiguity GpuAlphaMode.blend [⟨1, 4, 3, 0⟩, ⟨2, 4, 1, 0⟩] 0 1 1
    (by decide) (by decide) (by decide) (by decide)

/-- Claim C2 (amended): sort direction holds within each same-mesh run (the mesh handle
being the senior sort key): for adjacent packed instances of the same mesh, a blend batch
orders them by descending bias-adjusted view distance (back-to-front) and an opaque or
mask batch by ascending bias-adjusted view distance (front-to-back); in particular a
single-mesh blend batch at view distances [3, 1, 5] packs as [5, 3, 1] and the opaque
batch packs as [1, 3, 5]. -/
theorem C2_sort_direction :
    (∀ (insts : List SortInstance) (i : Nat)
      (hi : i + 1 < (sortInstances GpuAlphaMode.blend insts).length),
      ((sortInstances GpuAlphaMode.blend insts).get ⟨i, by omega⟩).meshHandle =
        ((sortInstances GpuAlphaMode.blend insts).get ⟨i + 1, hi⟩).meshHandle →
      ((sortInstances GpuAlphaMode.blend insts).get ⟨i + 1, hi⟩).viewDistance -
          ((sortInstances GpuAlphaMode.blend insts).get ⟨i + 1, hi⟩).depthBias ≤
        ((sortInstances GpuAlphaMode.blend insts).get ⟨i, by omega⟩).viewDistance -
          ((sortInstances GpuAlphaMode.blend insts).get ⟨i, by omega⟩).depthBias) ∧
    (∀ (alphaMode : GpuAlphaMode), alphaMode ≠ GpuAlphaMode.blend →
      ∀ (insts : List SortInstance) (i : Nat)
      (hi : i + 1 < (sortInstances alphaMode insts).length),
      ((sortInstances alphaMode insts).get ⟨i, by omega⟩).meshHandle =
        ((sortInstances alphaMode insts).get ⟨i + 1, hi⟩).meshHandle →
      ((sortInstances alphaMode insts).get ⟨i, by omega⟩).viewDistance -
          ((sortInstances alphaMode insts).get ⟨i, by omega⟩).depthBias ≤
        ((sortInstances alphaMode insts).get ⟨i + 1, hi⟩).viewDistance -
          ((sortInstances alphaMode insts).get ⟨i + 1, hi⟩).depthBias) ∧
    (sortInstances GpuAlphaMode.blend [⟨1, 7, 3, 0⟩, ⟨2, 7, 1, 0⟩, ⟨3, 7, 5, 0⟩]).map
        (fun inst => inst.viewDistance) = [5, 3, 1] ∧
    (sortInstances GpuAlphaMode.opq [⟨1, 7, 3, 0⟩, ⟨2, 7, 1, 0⟩, ⟨3, 7, 5, 0⟩]).map
        (fun inst => inst.viewDistance) = [1, 3, 5] := by
  refine ⟨?_, ?_, by decide, by decide⟩
  · intro insts i hi hmesh
    have hsorted := sortInstances_sorted GpuAlphaMode.blend insts
    rw [List.Sorted, List.pairwise_iff_get] at hsorted
    have h := hsorted ⟨i, by omega⟩ ⟨i + 1, hi⟩ (by simp)
    unfold sortRel keyLe sortKey sortDist meshZ rangefinderDistance at h
    simp only [decide_eq_true_eq, if_true] at h
    rcases h with h | h
    · omega
    · have := h.2
      omega
  · intro alphaMode hmode insts i hi hmesh
    have hsorted := sortInstances_sorted alphaMode insts
    rw [List.Sorted, List.pairwise_iff_get] at hsorted
    have h := hsorted ⟨i, by omega⟩ ⟨i + 1, hi⟩ (by simp)
    unfold sortRel keyLe sortKey sortDist meshZ rangefinderDistance at h
    rw [if_neg hmode] at h
    simp only [decide_eq_true_eq] at h
    rcases h with h | h
    · omega
    · have := h.2
      omega

/-- Witness for C2 (amended) at the blend batch of the spec's example, adjacent
positions 0 and 1. -/
theorem C2_sort_direction_witness :
    ((sortInstances GpuAlphaMode.blend
          [⟨1, 7, 3, 0⟩, ⟨2, 7, 1, 0⟩, ⟨3, 7, 5, 0⟩]).get ⟨1, by decide⟩).viewDistance -
        ((sortInstances GpuAlphaMode.blend
          [⟨1, 7, 3, 0⟩, ⟨2, 7, 1, 0⟩, ⟨3, 7, 5, 0⟩]).get ⟨1, by decide⟩).depthBias ≤
      ((sortInstances GpuAlphaMode.blend
          [⟨1, 7, 3, 0⟩, ⟨2, 7, 1, 0⟩, ⟨3, 7, 5, 0⟩]).get ⟨0, by decide⟩).viewDistance -
        ((sortInstances GpuAlphaMode.blend
          [⟨1, 7, 3, 0⟩, ⟨2, 7, 1, 0⟩, ⟨3, 7, 5, 0⟩]).get ⟨0, by decide⟩).depthBias :=
  C2_sort_direction.1 [⟨1, 7, 3, 0⟩, ⟨2, 7, 1, 0⟩, ⟨3, 7, 5, 0⟩] 0 (by decide) (by decide)

/-- Counterexample to Claim C2 as stated: a blend batch is NOT always packed in globally
descending view-space distance — the mesh handle is the senior sort key, so a blend batch
holding mesh 2 at distance 5 and mesh 1 at distance 1 packs as [1, 5] (ascending). -/
theorem C2_counterexample :
    (sortInstances GpuAlphaMode.blend [⟨1, 2, 5, 0⟩, ⟨2, 1, 1, 0⟩]).map
        (fun inst => inst.viewDistance) = [1, 5] ∧
      ¬ (∀ (i : Nat)
          (hi : i + 1 < (sortInstances GpuAlphaMode.blend
            [⟨1, 2, 5, 0⟩, ⟨2, 1, 1, 0⟩]).length),
        ((sortInstances GpuAlphaMode.blend [⟨1, 2, 5, 0⟩, ⟨2, 1, 1, 0⟩]).get
            ⟨i + 1, hi⟩).viewDistance ≤
          ((sortInstances GpuAlphaMode.blend [⟨1, 2, 5, 0⟩, ⟨2, 1, 1, 0⟩]).get
            ⟨i, by omega⟩).viewDistance) :=
  ⟨by decide, fun h => absurd (h 0 (by decide)) (by decide)⟩

/-- bevy `MeshVertexBufferLayout`, abstracted to the data relevant to byte-layout
compatibility: the vertex array stride and the attribute offsets.  Only equality and
distinctness of layouts matter to the claims about the key. -/
structure MeshVertexBufferLayout where
  arrayStride : Nat
  attributeOffsets : List Nat
deriving DecidableEq, Repr

/-- wgpu `PrimitiveTopology`. -/
inductive PrimitiveTopology
  | pointList
  | lineList
  | lineStrip
  | triangleList
  | triangleStrip
deriving DecidableEq, Repr

/-- `primitive_topology as usize`: the Rust discriminants. -/
def PrimitiveTopology.asUsize : PrimitiveTopology → Nat
  | .pointList => 0
  | .lineList => 1
  | .lineStrip => 2
  | .triangleList => 3
  | .triangleStrip => 4

/-- `InstancedMeshKey` (plugin.rs lines 117-123): primitive topology, vertex buffer
layout, optional index format.  Equality (the derived `PartialEq`) compares all three
fields. -/
structure InstancedMeshKey where
  primitiveTopology : PrimitiveTopology
  layout : MeshVertexBufferLayout
  indexFormat : Option SrcIndexFormat
deriving DecidableEq, Repr

/-- Rust `Option<usize>` ordering: `None` sorts before `Some`. -/
def cmpOptUsize : Option Nat → Option Nat → Ordering
  | none, none => Ordering.eq
  | none, some _ => Ordering.lt
  | some _, none => Ordering.gt
  | some a, some b => compare a b

/-- `InstancedMeshKey::cmp` (plugin.rs lines 137-147): compare the topology
discriminants, then the index formats cast to `usize`.  The `layout` field is not
consulted. -/
def instancedMeshKeyCmp (a b : InstancedMeshKey) : Ordering :=
  match compare a.primitiveTopology.asUsize b.primitiveTopology.asUsize with
  | Ordering.eq =>
    cmpOptUsize (a.indexFormat.map SrcIndexFormat.asUsize)
      (b.indexFormat.map SrcIndexFormat.asUsize)
  | ord => ord

/-- Insertion into the `keyed_meshes` `BTreeMap<InstancedMeshKey, BTreeSet<Handle>>`
(prepare_mesh_batches.rs lines 48-78): `entry(key)` locates an existing entry by
`Ord`-comparison equality — `instancedMeshKeyCmp` returning `eq` — or creates a new one;
the `BTreeSet` insert deduplicates handles.  The entry list order abstracts the map's
internal order. -/
def keyedMeshesInsert (groups : List (InstancedMeshKey × List Nat))
    (key : InstancedMeshKey) (handle : Nat) : List (InstancedMeshKey × List Nat) :=
  match groups with
  | [] => [(key, [handle])]
  | g :: rest =>
    if instancedMeshKeyCmp key g.1 = Ordering.eq then
      (g.1, if handle ∈ g.2 then g.2 else g.2 ++ [handle]) :: rest
    else g :: keyedMeshesInsert rest key handle

/-- The `keyed_meshes` grouping loop over the visible instances' mesh handles
(prepare_mesh_batches.rs lines 48-78).  Each handle is looked up in the render-mesh
registry with `render_meshes.get(&mesh_handle).unwrap()` (lines 70-76): a handle whose
mesh was never extracted panics, modelled as `none`. -/
def keyVisibleMeshes (registry : List (Nat × InstancedMeshKey)) (handles : List Nat) :
    Option (List (InstancedMeshKey × List Nat)) :=
  handles.foldlM
    (fun groups handle =>
      match (registry.find? (fun p => p.1 == handle)).map Prod.snd with
      | some key => some (keyedMeshesInsert groups key handle)
      | none => none)
    []

/-- The instance-collection filters of `prepare_instance_batches.rs` (lines 88-104): an
instance whose mesh is missing from the render-mesh registry, or whose material is
missing from the render-material registry, is skipped with `continue`; the surviving
entities are returned in order.  Instances are `(entity, mesh handle, material handle)`
triples. -/
def collectInstancesGraceful (meshRegistry : List (Nat × InstancedMeshKey))
    (materialRegistry : List Nat) (insts : List (Nat × Nat × Nat)) : List Nat :=
  insts.filterMap
    (fun inst =>
      match (meshRegistry.find? (fun p => p.1 == inst.2.1)).map Prod.snd with
      | none => none
      | some _ => if inst.2.2 ∈ materialRegistry then some inst.1 else none)

/-- Claim C6: the structural-key batching invariant FAILS in the code —
`InstancedMeshKey::cmp` ignores the `layout` field, so two meshes whose keys differ only
in vertex buffer layout (strides 32 vs 48) compare `Equal` and the `BTreeMap` grouping
places them into one mesh batch, although the keys are unequal under the derived
`PartialEq`. -/
theorem C6_structural_key_violation :
    instancedMeshKeyCmp
        ⟨PrimitiveTopology.triangleList, ⟨32, [0, 12, 24]⟩, none⟩
        ⟨PrimitiveTopology.triangleList, ⟨48, [0, 16, 32]⟩, none⟩ = Ordering.eq ∧
      (⟨PrimitiveTopology.triangleList, ⟨32, [0, 12, 24]⟩, none⟩ : InstancedMeshKey) ≠
        ⟨PrimitiveTopology.triangleList, ⟨48, [0, 16, 32]⟩, none⟩ ∧
      (⟨32, [0, 12, 24]⟩ : MeshVertexBufferLayout) ≠ ⟨48, [0, 16, 32]⟩ ∧
      keyVisibleMeshes
          [(1, ⟨PrimitiveTopology.triangleList, ⟨32, [0, 12, 24]⟩, none⟩),
            (2, ⟨PrimitiveTopology.triangleList, ⟨48, [0, 16, 32]⟩, none⟩)] [1, 2] =
        some [(⟨PrimitiveTopology.triangleList, ⟨32, [0, 12, 24]⟩, none⟩, [1, 2])] :=
  ⟨by decide, by decide, by decide, by decide⟩

/-- Claim C7: the not-yet-ready path FAILS in `prepare_mesh_batches` — a visible
instance whose mesh handle (2) is absent from the render-mesh registry makes the keying
loop hit `render_meshes.get(..).unwrap()` and panic (`none`), even though the
instance-collection path of `prepare_instance_batches` would have dropped the same
instance silently (keeping entity 10, dropping entity 11). -/
theorem C7_missing_mesh_panics :
    keyVisibleMeshes [(1, ⟨PrimitiveTopology.triangleList, ⟨32, [0]⟩, none⟩)] [1, 2] =
        none ∧
      collectInstancesGraceful
          [(1, ⟨PrimitiveTopology.triangleList, ⟨32, [0]⟩, none⟩)] [7]
          [(10, 1, 7), (11, 2, 7)] = [10] :=
  ⟨by decide, by decide⟩

/-- One run of `prepare_mesh_batches` for a view, with an execution marker.
`IndirectRenderingPlugin::build` (instancing/plugin.rs lines 56-63) registers the system
into `RenderStage::Prepare` with only an `.after` ordering constraint — no run criteria
and no change-detection gate — and the system body (prepare_mesh_batches.rs lines 44-81)
regroups and reconcatenates unconditionally per view, so the marker is `true` on every
frame. -/
structure PrepareFrameTrace where
  meshBatches : Option (List (InstancedMeshKey × List Nat))
  ranMeshBatching : Bool
deriving DecidableEq, Repr

/-- A single frame's `Prepare`-stage run of the mesh-batching system. -/
def runPrepareFrame (registry : List (Nat × InstancedMeshKey)) (handles : List Nat) :
    PrepareFrameTrace :=
  ⟨keyVisibleMeshes registry handles, true⟩

/-- `n` consecutive frames over an unchanged mesh registry and visible set. -/
def runFrames (registry : List (Nat × InstancedMeshKey)) (handles : List Nat) (n : Nat) :
    List PrepareFrameTrace :=
  (List.range n).map (fun _ => runPrepareFrame registry handles)

/-- Claim C9 (amended): mesh batching is NOT change-gated — over any number of frames
with an unchanged mesh registry, every frame re-executes the mesh-batch grouping and
concatenation (each frame's trace is the same unconditional recomputation, with the
execution marker set). -/
theorem C9_unconditional_rebuild (registry : List (Nat × InstancedMeshKey))
    (handles : List Nat) (n : Nat) :
    runFrames registry handles n =
        List.replicate n (runPrepareFrame registry handles) ∧
      (runPrepareFrame registry handles).ranMeshBatching = true := by
  constructor
  · refine List.eq_replicate_iff.mpr ⟨by simp [runFrames], ?_⟩
    intro b hb
    unfold runFrames at hb
    rcases List.mem_map.mp hb with ⟨i, _, hi⟩
    exact hi.symm
  · rfl

/-- Counterexample to Claim C9 as stated: two consecutive frames with an identical mesh
registry both execute the mesh-batch concatenation — the execution trace is
`[true, true]`, not `[true, false]` as a change-gate would produce. -/
theorem C9_counterexample :
    (runFrames [(1, ⟨PrimitiveTopology.triangleList, ⟨32, [0]⟩, none⟩)] [1] 2).map
        (fun t => t.ranMeshBatching) = [true, true] ∧
      ([true, true] : List Bool) ≠ [true, false] :=
  ⟨by decide, by decide⟩

end Instancing
